import Mathlib

/-!
Verification development for the gohst rate-limiter core
(`internal/ratelimit`).  The Go source is shallowly embedded:

* Go `float64` quantities (`Bucket.Tokens`, refill rates, elapsed seconds)
  are modelled as exact rationals `ℚ`; Go `int`/`int64` as `ℤ`.
* Go `time.Time` values enter the model only through the arithmetic the
  code performs on them (`Sub(..).Seconds()`, `UnixMilli`), so times are
  rationals measured in seconds (or integer milliseconds on the Redis path).
* Stateful Go methods become pure functions returning the updated state.
* The `fmt.Sprintf("%.4f", ...)` formatting used when invoking the Redis
  Lua script is modelled as exact rounding (half-to-even) at 4 decimal
  places.
-/

namespace Gohst

/-- Go truncation `int(x)` of a float: rounds toward zero. -/
def ratTrunc (q : ℚ) : ℤ := if 0 ≤ q then ⌊q⌋ else -⌊-q⌋

/-- `Policy` from `ratelimit.go`: limit/window/burst/cost/enabled/concurrency.
`window` is the duration in seconds (`p.Window.Seconds()`). -/
structure Policy where
  limit : ℤ
  window : ℚ
  burst : ℤ
  scope : String
  enabled : Bool
  cost : ℤ
  concurrencyLimit : ℤ
deriving DecidableEq, Repr

/-- `Bucket` from `bucket.go`: per-key token-bucket state. -/
structure Bucket where
  tokens : ℚ
  maxTokens : ℚ
  refillRate : ℚ
  lastRefill : ℚ
deriving DecidableEq, Repr

/-- `NewBucket` (bucket.go:22): starts full with `limit + burst` tokens. -/
def NewBucket (p : Policy) (now : ℚ) : Bucket :=
  let maxT : ℚ := ((p.limit + p.burst : ℤ) : ℚ)
  { tokens := maxT
    maxTokens := maxT
    refillRate := (p.limit : ℚ) / p.window
    lastRefill := now }

/-- `Bucket.refill` (bucket.go:33): add tokens for elapsed time; no-op when
`elapsed ≤ 0`. -/
def Bucket.refill (b : Bucket) (now : ℚ) : Bucket :=
  let elapsed := now - b.lastRefill
  if elapsed ≤ 0 then b
  else { b with tokens := min b.maxTokens (b.tokens + elapsed * b.refillRate)
                lastRefill := now }

/-- `Bucket.Allow` (bucket.go:44): refill, then try to consume `cost` tokens.
Returns the updated bucket, the `remaining` return value (`int(b.Tokens)`)
and whether the request is allowed. -/
def Bucket.allow (b : Bucket) (cost : ℤ) (now : ℚ) : Bucket × ℤ × Bool :=
  let b1 := b.refill now
  let c : ℚ := (cost : ℚ)
  if c ≤ b1.tokens then
    ({ b1 with tokens := b1.tokens - c }, ratTrunc (b1.tokens - c), true)
  else
    (b1, 0, false)

/-- `Bucket.RetryAfter` (bucket.go:55): seconds until `cost` tokens will be
available (a float in Go, always integral as it is a `math.Ceil` result). -/
def Bucket.retryAfterSecs (b : Bucket) (cost : ℤ) : ℚ :=
  let deficit := (cost : ℚ) - b.tokens
  if deficit ≤ 0 then 0
  else if b.refillRate ≤ 0 then 0
  else ((⌈deficit / b.refillRate⌉ : ℤ) : ℚ)

/-- `Bucket.ResetUnix` (bucket.go:67): unix second when the bucket is full
again (the Go code reads the wall clock; we pass `now` explicitly). -/
def Bucket.resetUnix (b : Bucket) (now : ℚ) : ℤ :=
  let deficit := b.maxTokens - b.tokens
  if deficit ≤ 0 then ⌊now⌋
  else ⌊now + deficit / b.refillRate⌋

/-- `Result` from `bucket.go:81`. -/
structure Result where
  allowed : Bool
  limit : ℤ
  remaining : ℤ
  retryAfter : ℤ
  resetAt : ℤ
deriving DecidableEq, Repr

/-- `MemoryStore.Allow` (store_memory.go) restricted to the single bucket the
key maps to: looks up the entry (`none` = first request, creating a full
bucket), runs `Bucket.Allow`, and assembles the `Result`, clamping
`RetryAfter` to at least 1 on denial. -/
def memoryAllow (existing : Option Bucket) (p : Policy) (cost : ℤ) (now : ℚ) :
    Bucket × Result :=
  let b0 := match existing with
    | none => NewBucket p now
    | some b => b
  let step := b0.allow cost now
  let b1 := step.1
  let res : Result :=
    { allowed := step.2.2
      limit := p.limit + p.burst
      remaining := step.2.1
      retryAfter := 0
      resetAt := b1.resetUnix now }
  if step.2.2 then (b1, res)
  else
    let ra := ratTrunc (b1.retryAfterSecs cost)
    (b1, { res with retryAfter := if ra < 1 then 1 else ra })

/-- Iterate `Bucket.Allow` with a fixed cost at a fixed instant. -/
def iterAllow (b : Bucket) (cost : ℤ) (now : ℚ) : Nat → Bucket
  | 0 => b
  | n + 1 => ((iterAllow b cost now n).allow cost now).1

/-- Result (allowed?) of the `(n+1)`-st `Allow` call in such a sequence. -/
def allowedAt (b : Bucket) (cost : ℤ) (now : ℚ) (n : Nat) : Bool :=
  ((iterAllow b cost now n).allow cost now).2.2

theorem refill_at_lastRefill (b : Bucket) : b.refill b.lastRefill = b := by
  simp [Bucket.refill]

theorem iterAllow_state (p : Policy) (t : ℚ)
    (hl : 0 < p.limit) (hb : 0 ≤ p.burst) (n : Nat) :
    iterAllow (NewBucket p t) 1 t n =
      { tokens := ((p.limit + p.burst : ℤ) : ℚ) -
          min (n : ℚ) ((p.limit + p.burst : ℤ) : ℚ)
        maxTokens := ((p.limit + p.burst : ℤ) : ℚ)
        refillRate := (p.limit : ℚ) / p.window
        lastRefill := t } := by
  have hN0 : (0 : ℚ) ≤ ((p.limit + p.burst : ℤ) : ℚ) := by
    have : (0 : ℤ) ≤ p.limit + p.burst := by omega
    exact_mod_cast this
  induction n with
  | zero =>
      simp only [iterAllow, Nat.cast_zero]
      rw [min_eq_left hN0]
      simp [NewBucket]
  | succ n ih =>
      rw [iterAllow, ih]
      set N : ℚ := ((p.limit + p.burst : ℤ) : ℚ) with hN
      have hre : Bucket.refill
          { tokens := N - min (n : ℚ) N, maxTokens := N,
            refillRate := (p.limit : ℚ) / p.window, lastRefill := t } t =
          { tokens := N - min (n : ℚ) N, maxTokens := N,
            refillRate := (p.limit : ℚ) / p.window, lastRefill := t } :=
        refill_at_lastRefill _
      by_cases h : (n : ℚ) + 1 ≤ N
      · have hmin : min (n : ℚ) N = (n : ℚ) := by
          apply min_eq_left; linarith
        have hmin1 : min ((n : ℚ) + 1) N = (n : ℚ) + 1 := by
          apply min_eq_left; linarith
        have hcond : (1 : ℚ) ≤ N - min (n : ℚ) N := by
          rw [hmin]; linarith
        simp only [Bucket.allow, hre, Int.cast_one]
        rw [if_pos hcond]
        simp only [Bucket.mk.injEq]
        refine ⟨?_, trivial, trivial, trivial⟩
        rw [hmin]
        push_cast [hmin1]
        ring
      · -- here N ≤ n (both are integers), so the bucket is empty and stays so
        have hNn : N ≤ (n : ℚ) := by
          have h1 : N < (n : ℚ) + 1 := lt_of_not_le h
          have h2 : (p.limit + p.burst : ℤ) < (n : ℤ) + 1 := by
            rw [hN] at h1
            exact_mod_cast h1
          have h3 : (p.limit + p.burst : ℤ) ≤ (n : ℤ) := by omega
          rw [hN]
          exact_mod_cast h3
        have hmin : min (n : ℚ) N = N := min_eq_right hNn
        have hmin1 : min ((n : ℚ) + 1) N = N := by
          apply min_eq_right; linarith
        have hcond : ¬ ((1 : ℚ) ≤ N - min (n : ℚ) N) := by
          rw [hmin]; simp
        simp only [Bucket.allow, hre, Int.cast_one]
        rw [if_neg hcond]
        simp only [Bucket.mk.injEq]
        refine ⟨?_, trivial, trivial, trivial⟩
        push_cast [hmin, hmin1]
        ring

/-- C1: a freshly created bucket under a policy with positive limit and
non-negative burst, hit by `Allow` calls of cost 1 at a fixed instant,
admits exactly the first `limit + burst` calls and denies every later one. -/
theorem bucket_fresh_allows_exactly_capacity (p : Policy) (t : ℚ)
    (hl : 0 < p.limit) (hb : 0 ≤ p.burst) (n : Nat) :
    allowedAt (NewBucket p t) 1 t n = decide ((n : ℤ) < p.limit + p.burst) := by
  unfold allowedAt
  rw [iterAllow_state p t hl hb n]
  set N : ℚ := ((p.limit + p.burst : ℤ) : ℚ) with hN
  have hre : Bucket.refill
      { tokens := N - min (n : ℚ) N, maxTokens := N,
        refillRate := (p.limit : ℚ) / p.window, lastRefill := t } t =
      { tokens := N - min (n : ℚ) N, maxTokens := N,
        refillRate := (p.limit : ℚ) / p.window, lastRefill := t } :=
    refill_at_lastRefill _
  by_cases h : (n : ℤ) < p.limit + p.burst
  · have hq : (n : ℚ) + 1 ≤ N := by
      rw [hN]
      have : (n : ℤ) + 1 ≤ p.limit + p.burst := by omega
      calc (n : ℚ) + 1 = (((n : ℤ) + 1 : ℤ) : ℚ) := by push_cast; ring
        _ ≤ ((p.limit + p.burst : ℤ) : ℚ) := by exact_mod_cast this
    have hmin : min (n : ℚ) N = (n : ℚ) := by
      apply min_eq_left; linarith
    have hcond : (1 : ℚ) ≤ N - min (n : ℚ) N := by rw [hmin]; linarith
    simp only [Bucket.allow, hre, Int.cast_one]
    rw [if_pos hcond]
    simp [h]
  · have hNn : N ≤ (n : ℚ) := by
      have h3 : (p.limit + p.burst : ℤ) ≤ (n : ℤ) := by omega
      rw [hN]; exact_mod_cast h3
    have hmin : min (n : ℚ) N = N := min_eq_right hNn
    have hcond : ¬ ((1 : ℚ) ≤ N - min (n : ℚ) N) := by rw [hmin]; simp
    simp only [Bucket.allow, hre, Int.cast_one]
    rw [if_neg hcond]
    simp [h]

/-- Witness for C1 at the concrete policy limit 3, burst 1: the 4th call
(index 3) is still allowed and the 5th (index 4) is denied. -/
theorem bucket_fresh_allows_exactly_capacity_witness :
    allowedAt (NewBucket ⟨3, 60, 1, "w", true, 1, 0⟩ 0) 1 0 3 =
      decide ((3 : ℤ) < 3 + 1) ∧
    allowedAt (NewBucket ⟨3, 60, 1, "w", true, 1, 0⟩ 0) 1 0 4 =
      decide ((4 : ℤ) < 3 + 1) :=
  ⟨bucket_fresh_allows_exactly_capacity ⟨3, 60, 1, "w", true, 1, 0⟩ 0
      (by decide) (by decide) 3,
   bucket_fresh_allows_exactly_capacity ⟨3, 60, 1, "w", true, 1, 0⟩ 0
      (by decide) (by decide) 4⟩

/-- One operation applied to a bucket at some instant: an explicit `refill`
or an `Allow` with some cost (the operations `bucket.go` exposes). -/
inductive BucketOp where
  | refillOp (t : ℚ)
  | allowOp (cost : ℤ) (t : ℚ)
deriving DecidableEq, Repr

/-- Apply one operation to a bucket. -/
def applyOp (b : Bucket) : BucketOp → Bucket
  | .refillOp t => b.refill t
  | .allowOp c t => (b.allow c t).1

/-- Apply a sequence of operations left to right. -/
def applyOps (b : Bucket) (ops : List BucketOp) : Bucket :=
  ops.foldl applyOp b

/-- Allow costs are non-negative (the middleware clamps cost to at least 1,
`middleware.go:87-90`). -/
def opCostOk : BucketOp → Bool
  | .refillOp _ => true
  | .allowOp c _ => decide (0 ≤ c)

/-- The bucket invariant: tokens in range and non-negative refill rate. -/
def BucketOk (b : Bucket) : Prop :=
  0 ≤ b.tokens ∧ b.tokens ≤ b.maxTokens ∧ 0 ≤ b.refillRate

theorem refill_ok (b : Bucket) (t : ℚ) (hb : BucketOk b) :
    BucketOk (b.refill t) := by
  obtain ⟨h0, h1, h2⟩ := hb
  unfold Bucket.refill BucketOk
  dsimp only
  split
  · exact ⟨h0, h1, h2⟩
  · rename_i hlt
    have helapsed : 0 < t - b.lastRefill := not_le.mp hlt
    refine ⟨?_, ?_, h2⟩
    · simp only
      have : (0 : ℚ) ≤ b.tokens + (t - b.lastRefill) * b.refillRate := by
        have := mul_nonneg (le_of_lt helapsed) h2
        linarith
      have hm0 : (0 : ℚ) ≤ b.maxTokens := le_trans h0 h1
      exact le_min hm0 this
    · simp only
      exact min_le_left _ _

theorem refill_fields (b : Bucket) (t : ℚ) :
    (b.refill t).maxTokens = b.maxTokens ∧
    (b.refill t).refillRate = b.refillRate := by
  unfold Bucket.refill
  dsimp only
  split <;> simp

theorem refill_lastRefill_mono (b : Bucket) (t : ℚ) :
    b.lastRefill ≤ (b.refill t).lastRefill := by
  unfold Bucket.refill
  dsimp only
  split
  · exact le_refl _
  · rename_i hlt
    simp only
    linarith [not_le.mp hlt]

theorem allow_state_ok (b : Bucket) (c : ℤ) (t : ℚ)
    (hb : BucketOk b) (hc : 0 ≤ c) : BucketOk ((b.allow c t).1) := by
  have h1 := refill_ok b t hb
  unfold Bucket.allow
  obtain ⟨r0, r1, r2⟩ := h1
  dsimp only
  split
  · rename_i hge
    refine ⟨?_, ?_, r2⟩
    · simp only
      linarith
    · simp only
      have : (0 : ℚ) ≤ (c : ℚ) := by exact_mod_cast hc
      linarith
  · exact ⟨r0, r1, r2⟩

theorem allow_fields (b : Bucket) (c : ℤ) (t : ℚ) :
    ((b.allow c t).1).maxTokens = b.maxTokens ∧
    ((b.allow c t).1).refillRate = b.refillRate := by
  obtain ⟨hm, hr⟩ := refill_fields b t
  unfold Bucket.allow
  dsimp only
  split <;> simp [hm, hr]

theorem allow_lastRefill_mono (b : Bucket) (c : ℤ) (t : ℚ) :
    b.lastRefill ≤ ((b.allow c t).1).lastRefill := by
  have := refill_lastRefill_mono b t
  unfold Bucket.allow
  dsimp only
  split <;> simpa using this

theorem applyOp_ok (b : Bucket) (op : BucketOp)
    (hb : BucketOk b) (hc : opCostOk op = true) : BucketOk (applyOp b op) := by
  cases op with
  | refillOp t => exact refill_ok b t hb
  | allowOp c t =>
      have hc0 : (0 : ℤ) ≤ c := by simpa [opCostOk] using hc
      exact allow_state_ok b c t hb hc0

theorem applyOp_fields (b : Bucket) (op : BucketOp) :
    (applyOp b op).maxTokens = b.maxTokens ∧
    (applyOp b op).refillRate = b.refillRate := by
  cases op with
  | refillOp t => exact refill_fields b t
  | allowOp c t => exact allow_fields b c t

theorem applyOp_lastRefill_mono (b : Bucket) (op : BucketOp) :
    b.lastRefill ≤ (applyOp b op).lastRefill := by
  cases op with
  | refillOp t => exact refill_lastRefill_mono b t
  | allowOp c t => exact allow_lastRefill_mono b c t

theorem applyOps_ok (ops : List BucketOp) : ∀ (b : Bucket),
    BucketOk b → ops.all opCostOk = true → BucketOk (applyOps b ops) := by
  induction ops with
  | nil => intro b hb _; exact hb
  | cons op rest ih =>
      intro b hb hall
      rw [List.all_cons, Bool.and_eq_true] at hall
      exact ih (applyOp b op) (applyOp_ok b op hb hall.1) hall.2

theorem applyOps_maxTokens (ops : List BucketOp) : ∀ (b : Bucket),
    (applyOps b ops).maxTokens = b.maxTokens := by
  induction ops with
  | nil => intro b; rfl
  | cons op rest ih =>
      intro b
      have := (applyOp_fields b op).1
      calc (applyOps (applyOp b op) rest).maxTokens
          = (applyOp b op).maxTokens := ih (applyOp b op)
        _ = b.maxTokens := this

theorem applyOps_append (b : Bucket) (l1 l2 : List BucketOp) :
    applyOps b (l1 ++ l2) = applyOps (applyOps b l1) l2 :=
  List.foldl_append _ _ _ _

/-- C4: starting from a fresh bucket under a valid policy (positive limit,
non-negative burst, positive window), after any sequence of refill / Allow
operations at arbitrary times with non-negative costs, the token count stays
within `[0, max_tokens]`, and `last_refill` never moves backwards between
consecutive states. -/
theorem bucket_tokens_invariant (p : Policy) (t0 : ℚ) (ops : List BucketOp)
    (hl : 0 < p.limit) (hb : 0 ≤ p.burst) (hw : 0 < p.window)
    (hc : ops.all opCostOk = true) :
    (∀ n : Nat,
      0 ≤ (applyOps (NewBucket p t0) (ops.take n)).tokens ∧
      (applyOps (NewBucket p t0) (ops.take n)).tokens ≤
        (NewBucket p t0).maxTokens) ∧
    (∀ n : Nat,
      (applyOps (NewBucket p t0) (ops.take n)).lastRefill ≤
        (applyOps (NewBucket p t0) (ops.take (n + 1))).lastRefill) := by
  have hok : BucketOk (NewBucket p t0) := by
    refine ⟨?_, le_refl _, ?_⟩
    · have : (0 : ℤ) ≤ p.limit + p.burst := by omega
      simpa [NewBucket] using (by exact_mod_cast this : (0:ℚ) ≤ ((p.limit + p.burst : ℤ) : ℚ))
    · simp only [NewBucket]
      exact div_nonneg (by exact_mod_cast le_of_lt hl) (le_of_lt hw)
  have htake : ∀ n : Nat, (ops.take n).all opCostOk = true := by
    intro n
    rw [List.all_eq_true] at hc ⊢
    intro x hx
    exact hc x (List.take_subset n ops hx)
  constructor
  · intro n
    have h1 := applyOps_ok (ops.take n) (NewBucket p t0) hok (htake n)
    have h2 := applyOps_maxTokens (ops.take n) (NewBucket p t0)
    exact ⟨h1.1, h2 ▸ h1.2.1⟩
  · intro n
    rw [List.take_succ, applyOps_append]
    cases hg : ops[n]? with
    | none => simp [hg, applyOps]
    | some op =>
        simp only [hg, Option.toList_some]
        exact applyOp_lastRefill_mono _ op

/-- Witness for C4 at a concrete policy and operation list (an allow, a
backwards-time refill, another allow). -/
theorem bucket_tokens_invariant_witness :
    (0 ≤ (applyOps (NewBucket ⟨2, 10, 0, "w", true, 1, 0⟩ 5)
        (([BucketOp.allowOp 1 5, BucketOp.refillOp 3,
           BucketOp.allowOp 1 6].take 3))).tokens ∧
      (applyOps (NewBucket ⟨2, 10, 0, "w", true, 1, 0⟩ 5)
        (([BucketOp.allowOp 1 5, BucketOp.refillOp 3,
           BucketOp.allowOp 1 6].take 3))).tokens ≤
        (NewBucket ⟨2, 10, 0, "w", true, 1, 0⟩ 5).maxTokens) ∧
    (applyOps (NewBucket ⟨2, 10, 0, "w", true, 1, 0⟩ 5)
        (([BucketOp.allowOp 1 5, BucketOp.refillOp 3,
           BucketOp.allowOp 1 6].take 1))).lastRefill ≤
      (applyOps (NewBucket ⟨2, 10, 0, "w", true, 1, 0⟩ 5)
        (([BucketOp.allowOp 1 5, BucketOp.refillOp 3,
           BucketOp.allowOp 1 6].take 2))).lastRefill :=
  ⟨(bucket_tokens_invariant ⟨2, 10, 0, "w", true, 1, 0⟩ 5
      [BucketOp.allowOp 1 5, BucketOp.refillOp 3, BucketOp.allowOp 1 6]
      (by decide) (by decide) (by decide) (by decide)).1 3,
   (bucket_tokens_invariant ⟨2, 10, 0, "w", true, 1, 0⟩ 5
      [BucketOp.allowOp 1 5, BucketOp.refillOp 3, BucketOp.allowOp 1 6]
      (by decide) (by decide) (by decide) (by decide)).2 1⟩

/-- Round a rational to the nearest integer, ties to even (the rounding
`fmt.Sprintf` with a fixed precision performs on the decimal digits). -/
def roundHalfToEven (q : ℚ) : ℤ :=
  let f := ⌊q⌋
  let r := q - (f : ℚ)
  if r < 1/2 then f
  else if 1/2 < r then f + 1
  else if f % 2 = 0 then f else f + 1

/-- Model of `fmt.Sprintf("%.4f", x)` followed by Lua `tonumber`: the value
is quantized to 4 decimal places (store_redis.go:124-125 formats both
`maxTokens` and `refillRate` this way before handing them to the script). -/
def fmt4 (q : ℚ) : ℚ := ((roundHalfToEven (q * 10000) : ℤ) : ℚ) / 10000

/-- Return tuple of the `luaTokenBucket` script (store_redis.go:60-111). -/
structure LuaOut where
  allowedFlag : ℤ
  remaining : ℤ
  retryMs : ℤ
  resetAt : ℤ
deriving DecidableEq, Repr

/-- The lookup-and-refill phase of the `luaTokenBucket` script
(store_redis.go:68-83): the stored hash fields `(tokens, last_ms)` (`none`
models an absent key, which starts a full bucket), then the elapsed-time
refill capped at `max`. -/
def luaRefill (stored : Option (ℚ × ℤ)) (maxT rate : ℚ) (nowMs : ℤ) :
    ℚ × ℤ :=
  let init : ℚ × ℤ := match stored with
    | none => (maxT, nowMs)
    | some s => s
  let elapsedS : ℚ := ((nowMs - init.2 : ℤ) : ℚ) / 1000
  if 0 < elapsedS then (min maxT (init.1 + elapsedS * rate), nowMs)
  else init

/-- The `luaTokenBucket` Lua script (store_redis.go:60-111): refill, then
consume, then the retry / reset arithmetic.  Returns the new stored state
and the `{allowed, remaining, retry_ms, reset_at}` tuple.  Lua floats are
modelled as exact rationals; when `rate = 0` the Lua division produces
`inf` where the rational model yields `0`, so theorems about this function
assume `0 < rate`. -/
def luaTokenBucket (stored : Option (ℚ × ℤ)) (maxT rate : ℚ) (cost : ℤ)
    (nowMs : ℤ) : (ℚ × ℤ) × LuaOut :=
  let refilled := luaRefill stored maxT rate nowMs
  let tokens1 := refilled.1
  let tokens2 := if (cost : ℚ) ≤ tokens1 then tokens1 - (cost : ℚ) else tokens1
  let allowedFlag : ℤ := if (cost : ℚ) ≤ tokens1 then 1 else 0
  let remaining : ℤ := ⌊tokens2⌋
  let retryMs : ℤ :=
    if (cost : ℚ) ≤ tokens1 then 0
    else ⌈(((cost : ℚ) - tokens1) / rate) * 1000⌉
  let deficitFull := maxT - tokens2
  let resetS : ℚ := if 0 < deficitFull ∧ 0 < rate then deficitFull / rate else 0
  let resetAt : ℤ := ⌊(nowMs : ℚ) / 1000⌋ + ⌈resetS⌉
  ((tokens2, refilled.2),
   { allowedFlag := allowedFlag, remaining := remaining,
     retryMs := retryMs, resetAt := resetAt })

/-- `RedisStore.Allow` (store_redis.go:114-157) given the script outcome:
on script error it fails open with a full-bucket sentinel result; otherwise
it converts the returned tuple, clamping `RetryAfter` to at least 1 on
denial (`retryAfter := retryMs / 1000` uses Go integer division). -/
def redisStoreAllow (p : Policy) (scriptResult : Except String LuaOut) :
    Result :=
  match scriptResult with
  | .error _ =>
      { allowed := true
        limit := p.limit + p.burst
        remaining := p.limit + p.burst
        retryAfter := 0
        resetAt := 0 }
  | .ok vals =>
      let allowed := vals.allowedFlag == 1
      let retryAfter0 := Int.tdiv vals.retryMs 1000
      let retryAfter := if !allowed && retryAfter0 < 1 then 1 else retryAfter0
      { allowed := allowed
        limit := p.limit + p.burst
        remaining := vals.remaining
        retryAfter := retryAfter
        resetAt := vals.resetAt }

/-- `RedisStore.Allow` composed with a successful script run: the script is
invoked with `%.4f`-formatted `max_tokens` and `refill_rate`
(store_redis.go:118-129). -/
def redisAllow (stored : Option (ℚ × ℤ)) (p : Policy) (cost : ℤ)
    (nowMs : ℤ) : Result :=
  let maxT := fmt4 ((p.limit + p.burst : ℤ) : ℚ)
  let rate := fmt4 ((p.limit : ℚ) / p.window)
  redisStoreAllow p (.ok (luaTokenBucket stored maxT rate cost nowMs).2)

/-- `truncateKey` (middleware.go:199-204). -/
def truncateKey (key : String) : String :=
  if key.length > 40 then (key.take 40) ++ "..." else key

/-- `LogEntry` from `log.go` (the fields `denyResponse` fills). -/
structure LogEntry where
  method : String
  path : String
  keyType : String
  keyHash : String
  scope : String
  retryAfter : ℤ
  clientIP : String
deriving DecidableEq, Repr

/-- The `LogEntry` built by `Limiter.denyResponse` (middleware.go:137-146):
its `KeyHash` field is `truncateKey(key)`. -/
def mkDenyLogEntry (method path keyType key scope : String) (result : Result)
    (clientIP : String) : LogEntry :=
  { method := method
    path := path
    keyType := keyType
    keyHash := truncateKey key
    scope := scope
    retryAfter := result.retryAfter
    clientIP := clientIP }

/-- Outcome of one pass through `Limiter.Middleware` (middleware.go:70-128). -/
inductive Outcome where
  | passthrough
  | deniedConcurrency
  | deniedRate
  | admitted
deriving DecidableEq, Repr

/-- The request-handling logic of `Limiter.Middleware` (middleware.go:70-128):
global/policy kill-switch, allowlist bypass, cost clamp, concurrency check,
then the store's rate check.  `storeAllow` abstracts `l.store.Allow` as a
function of the policy and the clamped cost. -/
def limiterDecide (globalEnabled : Bool) (p : Policy) (allowlistHit : Bool)
    (hasConc : Bool) (acquireOk : Bool)
    (storeAllow : Policy → ℤ → Result) : Outcome :=
  if !globalEnabled || !p.enabled then .passthrough
  else if allowlistHit then .passthrough
  else
    let cost := if p.cost < 1 then 1 else p.cost
    if decide (0 < p.concurrencyLimit) && hasConc && !acquireOk then
      .deniedConcurrency
    else if !(storeAllow p cost).allowed then .deniedRate
    else .admitted

/-- `RedisConcurrencyStore.Acquire` (store_redis.go:204-211): on script error
it returns `(true, nil)` — fail-open; otherwise true iff the script
returned 1. -/
def redisConcAcquire (scriptResult : Except String ℤ) : Bool × Option String :=
  match scriptResult with
  | .error _ => (true, none)
  | .ok r => (r == 1, none)

/-- Stored Redis state has non-negative tokens (the script only ever stores
`tokens ≥ 0`: it starts at `max ≥ 0` and subtracts at most the available
amount). -/
def storedNonneg : Option (ℚ × ℤ) → Bool
  | none => true
  | some s => decide (0 ≤ s.1)

theorem roundHalfToEven_nonneg (q : ℚ) (h : 0 ≤ q) :
    0 ≤ roundHalfToEven q := by
  have h0 : (0 : ℤ) ≤ ⌊q⌋ := Int.floor_nonneg.mpr h
  unfold roundHalfToEven
  dsimp only
  split_ifs <;> omega

theorem fmt4_nonneg (q : ℚ) (h : 0 ≤ q) : 0 ≤ fmt4 q := by
  unfold fmt4
  have := roundHalfToEven_nonneg (q * 10000) (by positivity)
  positivity

theorem ratTrunc_intCast (k : ℤ) (h : 0 ≤ k) : ratTrunc ((k : ℚ)) = k := by
  unfold ratTrunc
  rw [if_pos (by exact_mod_cast h)]
  exact Int.floor_intCast k

theorem luaRefill_nonneg (stored : Option (ℚ × ℤ)) (maxT rate : ℚ)
    (nowMs : ℤ) (hmax : 0 ≤ maxT) (hrate : 0 ≤ rate)
    (hs : storedNonneg stored = true) :
    0 ≤ (luaRefill stored maxT rate nowMs).1 := by
  have hinit : 0 ≤ (match stored with
      | none => ((maxT, nowMs) : ℚ × ℤ)
      | some s => s).1 := by
    cases stored with
    | none => exact hmax
    | some s => simpa [storedNonneg] using hs
  unfold luaRefill
  dsimp only
  split
  · rename_i hpos
    refine le_min hmax ?_
    have := mul_nonneg (le_of_lt hpos) hrate
    linarith
  · exact hinit

theorem memoryAllow_allowed (eb : Option Bucket) (p : Policy) (cost : ℤ)
    (now : ℚ) :
    (memoryAllow eb p cost now).2.allowed =
      ((match eb with | none => NewBucket p now | some b => b).allow
        cost now).2.2 := by
  unfold memoryAllow
  dsimp only
  split <;> rfl

theorem memoryAllow_allowed_of_le (b : Bucket) (p : Policy) (cost : ℤ)
    (now : ℚ) (hallow : (cost : ℚ) ≤ (b.refill now).tokens) :
    (memoryAllow (some b) p cost now).2.allowed = true := by
  have hstep : (b.allow cost now).2.2 = true := by
    unfold Bucket.allow
    dsimp only
    rw [if_pos hallow]
  rw [memoryAllow_allowed]
  exact hstep

theorem memoryAllow_denied_fields (b : Bucket) (p : Policy) (cost : ℤ)
    (now : ℚ) (hallow : ¬ ((cost : ℚ) ≤ (b.refill now).tokens)) :
    (memoryAllow (some b) p cost now).2.retryAfter =
      (if ratTrunc ((b.refill now).retryAfterSecs cost) < 1 then 1
       else ratTrunc ((b.refill now).retryAfterSecs cost)) ∧
    (memoryAllow (some b) p cost now).2.remaining = 0 ∧
    (memoryAllow (some b) p cost now).2.allowed = false := by
  have hstep : b.allow cost now = (b.refill now, 0, false) := by
    unfold Bucket.allow
    dsimp only
    rw [if_neg hallow]
  unfold memoryAllow
  dsimp only
  rw [hstep]
  simp

theorem redisAllow_eq (stored : Option (ℚ × ℤ)) (p : Policy)
    (cost nowMs : ℤ) :
    redisAllow stored p cost nowMs =
      redisStoreAllow p (.ok (luaTokenBucket stored
        (fmt4 ((p.limit + p.burst : ℤ) : ℚ))
        (fmt4 ((p.limit : ℚ) / p.window)) cost nowMs).2) := rfl

theorem redisStoreAllow_ok (p : Policy) (vals : LuaOut) :
    redisStoreAllow p (.ok vals) =
      { allowed := vals.allowedFlag == 1
        limit := p.limit + p.burst
        remaining := vals.remaining
        retryAfter :=
          if !(vals.allowedFlag == 1) && decide (Int.tdiv vals.retryMs 1000 < 1)
          then 1 else Int.tdiv vals.retryMs 1000
        resetAt := vals.resetAt } := rfl

theorem luaOut_allowedFlag_of_le (stored : Option (ℚ × ℤ)) (maxT rate : ℚ)
    (cost nowMs : ℤ)
    (hallow : (cost : ℚ) ≤ (luaRefill stored maxT rate nowMs).1) :
    (luaTokenBucket stored maxT rate cost nowMs).2.allowedFlag = 1 := by
  unfold luaTokenBucket
  dsimp only
  simp only [if_pos hallow]

theorem luaOut_denied (stored : Option (ℚ × ℤ)) (maxT rate : ℚ)
    (cost nowMs : ℤ)
    (hallow : ¬ ((cost : ℚ) ≤ (luaRefill stored maxT rate nowMs).1)) :
    (luaTokenBucket stored maxT rate cost nowMs).2.allowedFlag = 0 ∧
    (luaTokenBucket stored maxT rate cost nowMs).2.remaining =
      ⌊(luaRefill stored maxT rate nowMs).1⌋ ∧
    (luaTokenBucket stored maxT rate cost nowMs).2.retryMs =
      ⌈(((cost : ℚ) - (luaRefill stored maxT rate nowMs).1) / rate) * 1000⌉ := by
  unfold luaTokenBucket
  dsimp only
  simp only [if_neg hallow]
  exact ⟨trivial, trivial, trivial⟩

/-- On denial the memory store reports a retry-after between 1 and
`⌈cost / refill_rate⌉` (helper for the amended C2). -/
theorem memRetry_bounds (p : Policy) (b : Bucket) (cost : ℤ) (now : ℚ)
    (hl : 0 < p.limit) (hw : 0 < p.window) (hc : 1 ≤ cost)
    (hok : BucketOk b) (hrate : b.refillRate = (p.limit : ℚ) / p.window)
    (hden : (memoryAllow (some b) p cost now).2.allowed = false) :
    1 ≤ (memoryAllow (some b) p cost now).2.retryAfter ∧
    (memoryAllow (some b) p cost now).2.retryAfter ≤
      ⌈(cost : ℚ) / ((p.limit : ℚ) / p.window)⌉ := by
  have hro := refill_ok b now hok
  have hrf := refill_fields b now
  have hratepos : (0 : ℚ) < (p.limit : ℚ) / p.window :=
    div_pos (by exact_mod_cast hl) hw
  have hrate1 : (b.refill now).refillRate = (p.limit : ℚ) / p.window := by
    rw [hrf.2, hrate]
  by_cases hallow : (cost : ℚ) ≤ (b.refill now).tokens
  · exfalso
    have htrue := memoryAllow_allowed_of_le b p cost now hallow
    rw [htrue] at hden
    exact Bool.noConfusion hden
  · have hfields := memoryAllow_denied_fields b p cost now hallow
    have htok : (b.refill now).tokens < (cost : ℚ) := lt_of_not_le hallow
    have htok0 : 0 ≤ (b.refill now).tokens := hro.1
    have hdef : 0 < (cost : ℚ) - (b.refill now).tokens := by linarith
    have hras : (b.refill now).retryAfterSecs cost =
        ((⌈((cost : ℚ) - (b.refill now).tokens) /
            (b.refill now).refillRate⌉ : ℤ) : ℚ) := by
      unfold Bucket.retryAfterSecs
      dsimp only
      rw [if_neg (not_le.mpr hdef),
          if_neg (not_le.mpr (by rw [hrate1]; exact hratepos))]
    have hceil1 : 1 ≤ ⌈((cost : ℚ) - (b.refill now).tokens) /
        (b.refill now).refillRate⌉ := by
      apply Int.ceil_pos.mpr
      rw [hrate1]
      exact div_pos hdef hratepos
    have hceil2 : ⌈((cost : ℚ) - (b.refill now).tokens) /
        (b.refill now).refillRate⌉ ≤
        ⌈(cost : ℚ) / ((p.limit : ℚ) / p.window)⌉ := by
      apply Int.ceil_le_ceil
      rw [hrate1]
      apply div_le_div_of_nonneg_right _ (le_of_lt hratepos)
      linarith
    have hra : (memoryAllow (some b) p cost now).2.retryAfter =
        ⌈((cost : ℚ) - (b.refill now).tokens) /
          (b.refill now).refillRate⌉ := by
      rw [hfields.1, hras, ratTrunc_intCast _ (by omega)]
      rw [if_neg (by omega)]
    rw [hra]
    exact ⟨hceil1, hceil2⟩

/-- On denial the Redis store reports a retry-after between 1 and
`⌈cost / rate⌉` for the quantized rate actually passed to the script
(helper for the amended C2). -/
theorem redisRetry_bounds (stored : Option (ℚ × ℤ)) (p : Policy)
    (cost nowMs : ℤ) (hl : 0 < p.limit) (hb : 0 ≤ p.burst) (hc : 1 ≤ cost)
    (hrate : 0 < fmt4 ((p.limit : ℚ) / p.window))
    (hs : storedNonneg stored = true)
    (hden : (redisAllow stored p cost nowMs).allowed = false) :
    1 ≤ (redisAllow stored p cost nowMs).retryAfter ∧
    (redisAllow stored p cost nowMs).retryAfter ≤
      ⌈(cost : ℚ) / fmt4 ((p.limit : ℚ) / p.window)⌉ := by
  set rate := fmt4 ((p.limit : ℚ) / p.window) with hratedef
  set maxT := fmt4 ((p.limit + p.burst : ℤ) : ℚ) with hmaxdef
  have hmax0 : 0 ≤ maxT := by
    rw [hmaxdef]
    apply fmt4_nonneg
    have : (0 : ℤ) ≤ p.limit + p.burst := by omega
    exact_mod_cast this
  have ht0 : 0 ≤ (luaRefill stored maxT rate nowMs).1 :=
    luaRefill_nonneg stored maxT rate nowMs hmax0 (le_of_lt hrate) hs
  by_cases hallow : (cost : ℚ) ≤ (luaRefill stored maxT rate nowMs).1
  · exfalso
    have hflag := luaOut_allowedFlag_of_le stored maxT rate cost nowMs hallow
    have htrue : (redisAllow stored p cost nowMs).allowed = true := by
      rw [redisAllow_eq, redisStoreAllow_ok, ← hmaxdef, ← hratedef]
      dsimp only
      rw [hflag]
      rfl
    rw [htrue] at hden
    exact Bool.noConfusion hden
  · have hout := luaOut_denied stored maxT rate cost nowMs hallow
    have htok : (luaRefill stored maxT rate nowMs).1 < (cost : ℚ) :=
      lt_of_not_le hallow
    have hdef : 0 < (cost : ℚ) - (luaRefill stored maxT rate nowMs).1 := by
      linarith
    have hcpos : (0 : ℚ) < (cost : ℚ) := by
      exact_mod_cast (by omega : (0 : ℤ) < cost)
    have hM1 : 1 ≤ ⌈(cost : ℚ) / rate⌉ :=
      Int.ceil_pos.mpr (div_pos hcpos hrate)
    have hms0 : 0 <
        ⌈(((cost : ℚ) - (luaRefill stored maxT rate nowMs).1) / rate) * 1000⌉ := by
      apply Int.ceil_pos.mpr
      have hdr : 0 < ((cost : ℚ) - (luaRefill stored maxT rate nowMs).1) / rate :=
        div_pos hdef hrate
      linarith
    have hmsle :
        ⌈(((cost : ℚ) - (luaRefill stored maxT rate nowMs).1) / rate) * 1000⌉ ≤
          1000 * ⌈(cost : ℚ) / rate⌉ := by
      apply Int.ceil_le.mpr
      have h1 : ((cost : ℚ) - (luaRefill stored maxT rate nowMs).1) / rate ≤
          (cost : ℚ) / rate :=
        div_le_div_of_nonneg_right (by linarith) (le_of_lt hrate)
      have h2 : (cost : ℚ) / rate ≤ ((⌈(cost : ℚ) / rate⌉ : ℤ) : ℚ) :=
        Int.le_ceil _
      push_cast
      nlinarith
    have htd : Int.tdiv
        ⌈(((cost : ℚ) - (luaRefill stored maxT rate nowMs).1) / rate) * 1000⌉
        1000 ≤ ⌈(cost : ℚ) / rate⌉ := by
      rw [Int.tdiv_eq_ediv (by omega) (by omega)]
      calc ⌈(((cost : ℚ) - (luaRefill stored maxT rate nowMs).1) / rate) *
            1000⌉ / 1000 ≤ (1000 * ⌈(cost : ℚ) / rate⌉) / 1000 :=
            Int.ediv_le_ediv (by omega) hmsle
        _ = ⌈(cost : ℚ) / rate⌉ :=
            Int.mul_ediv_cancel_left _ (by omega)
    have hra : (redisAllow stored p cost nowMs).retryAfter =
        if !((0 : ℤ) == 1) && decide (Int.tdiv
            ⌈(((cost : ℚ) - (luaRefill stored maxT rate nowMs).1) / rate) *
              1000⌉ 1000 < 1) then 1
        else Int.tdiv
            ⌈(((cost : ℚ) - (luaRefill stored maxT rate nowMs).1) / rate) *
              1000⌉ 1000 := by
      rw [redisAllow_eq, redisStoreAllow_ok, ← hmaxdef, ← hratedef]
      dsimp only
      rw [hout.1, hout.2.2]
    rw [hra]
    by_cases hlt : Int.tdiv
        ⌈(((cost : ℚ) - (luaRefill stored maxT rate nowMs).1) / rate) *
          1000⌉ 1000 < 1
    · rw [if_pos (by simp [hlt])]
      exact ⟨le_refl 1, hM1⟩
    · rw [if_neg (by simp [hlt])]
      exact ⟨by omega, htd⟩

theorem fmt4_3_25000 : fmt4 (((3 : ℤ) : ℚ) / 25000) = 1 / 10000 := by
  unfold fmt4 roundHalfToEven
  norm_num

/-- C2 counterexample: under policy `{limit = 3, window = 25000s, burst = 0}`
the refill rate `3/25000 = 0.00012` is formatted with `%.4f` as `0.0001`
before it reaches the Lua script, so an exhausted bucket is told to retry
after 10000 seconds although `⌈cost / refill_rate⌉ = ⌈25000/3⌉ = 8334`.
(The state `tokens = 0` is reached by three allowed cost-1 calls.) -/
theorem redis_retryAfter_exceeds_bound_cex :
    (redisAllow (some (0, 0)) ⟨3, 25000, 0, "auth", true, 1, 0⟩ 1 0).allowed
        = false ∧
    ¬ ((redisAllow (some (0, 0)) ⟨3, 25000, 0, "auth", true, 1, 0⟩ 1 0).retryAfter
        ≤ ⌈(1 : ℚ) / (((3 : ℤ) : ℚ) / (25000 : ℚ))⌉) := by
  have h1 : (redisAllow (some (0, 0)) ⟨3, 25000, 0, "auth", true, 1, 0⟩ 1
      0).allowed = false := by
    unfold redisAllow luaTokenBucket luaRefill redisStoreAllow fmt4
      roundHalfToEven
    norm_num
  have h2 : (redisAllow (some (0, 0)) ⟨3, 25000, 0, "auth", true, 1, 0⟩ 1
      0).retryAfter = 10000 := by
    unfold redisAllow luaTokenBucket luaRefill redisStoreAllow fmt4
      roundHalfToEven
    norm_num [Int.ceil_eq_iff, Int.tdiv]
  have h3 : ⌈(1 : ℚ) / (((3 : ℤ) : ℚ) / (25000 : ℚ))⌉ = 8334 := by
    norm_num [Int.ceil_eq_iff]
  refine ⟨h1, ?_⟩
  rw [h2, h3]
  omega

/-- C2 (amended): on every denial both stores report `retry_after ≥ 1`.  The
upper bound `⌈cost / refill_rate⌉` holds for the in-memory store with the
exact rate `limit / window_seconds`; for the Redis store it holds with the
4-decimal quantized rate `fmt4(limit / window_seconds)` its script is
actually given (assumed positive, i.e. not rounded down to zero). -/
theorem retryAfter_bounds_amended :
    (∀ (p : Policy) (b : Bucket) (cost : ℤ) (now : ℚ),
      0 < p.limit → 0 < p.window → 1 ≤ cost →
      BucketOk b → b.refillRate = (p.limit : ℚ) / p.window →
      (memoryAllow (some b) p cost now).2.allowed = false →
      1 ≤ (memoryAllow (some b) p cost now).2.retryAfter ∧
      (memoryAllow (some b) p cost now).2.retryAfter ≤
        ⌈(cost : ℚ) / ((p.limit : ℚ) / p.window)⌉) ∧
    (∀ (stored : Option (ℚ × ℤ)) (p : Policy) (cost nowMs : ℤ),
      0 < p.limit → 0 ≤ p.burst → 1 ≤ cost →
      0 < fmt4 ((p.limit : ℚ) / p.window) →
      storedNonneg stored = true →
      (redisAllow stored p cost nowMs).allowed = false →
      1 ≤ (redisAllow stored p cost nowMs).retryAfter ∧
      (redisAllow stored p cost nowMs).retryAfter ≤
        ⌈(cost : ℚ) / fmt4 ((p.limit : ℚ) / p.window)⌉) :=
  ⟨fun p b cost now hl hw hc hok hrate hden =>
      memRetry_bounds p b cost now hl hw hc hok hrate hden,
   fun stored p cost nowMs hl hb hc hrate hs hden =>
      redisRetry_bounds stored p cost nowMs hl hb hc hrate hs hden⟩

/-- Witness for the amended C2: an exhausted in-memory bucket under
`{limit = 2, window = 1s}` and an exhausted Redis record under
`{limit = 3, window = 1s}`. -/
theorem retryAfter_bounds_amended_witness :
    (1 ≤ (memoryAllow (some ⟨0, 2, 2, 0⟩)
        ⟨2, 1, 0, "w", true, 1, 0⟩ 1 0).2.retryAfter ∧
      (memoryAllow (some ⟨0, 2, 2, 0⟩)
        ⟨2, 1, 0, "w", true, 1, 0⟩ 1 0).2.retryAfter ≤
        ⌈(1 : ℚ) / (((2 : ℤ) : ℚ) / (1 : ℚ))⌉) ∧
    (1 ≤ (redisAllow (some (0, 0)) ⟨3, 1, 0, "w", true, 1, 0⟩ 1 0).retryAfter ∧
      (redisAllow (some (0, 0)) ⟨3, 1, 0, "w", true, 1, 0⟩ 1 0).retryAfter ≤
        ⌈(1 : ℚ) / fmt4 (((3 : ℤ) : ℚ) / (1 : ℚ))⌉) :=
  ⟨retryAfter_bounds_amended.1 ⟨2, 1, 0, "w", true, 1, 0⟩ ⟨0, 2, 2, 0⟩ 1 0
      (by norm_num) (by norm_num) (by norm_num)
      (by refine ⟨by norm_num, by norm_num, by norm_num⟩)
      (by norm_num)
      (by rw [memoryAllow_allowed]
          unfold Bucket.allow Bucket.refill
          norm_num),
   retryAfter_bounds_amended.2 (some (0, 0)) ⟨3, 1, 0, "w", true, 1, 0⟩ 1 0
      (by norm_num) (by norm_num) (by norm_num)
      (by unfold fmt4 roundHalfToEven; norm_num)
      (by simp [storedNonneg])
      (by unfold redisAllow luaTokenBucket luaRefill redisStoreAllow fmt4
            roundHalfToEven
          norm_num)⟩

/-- C3 counterexample: under policy `{limit = 3, window = 1s, burst = 0,
cost = 2}` a Redis record holding one token (reached by one allowed cost-2
call on the fresh 3-token bucket) is denied, yet the script reports
`remaining = ⌊tokens⌋ = 1`, not 0. -/
theorem redis_denied_remaining_nonzero_cex :
    (redisAllow (some (1, 0)) ⟨3, 1, 0, "exports", true, 2, 0⟩ 2 0).allowed
        = false ∧
    (redisAllow (some (1, 0)) ⟨3, 1, 0, "exports", true, 2, 0⟩ 2 0).remaining
        ≠ 0 := by
  have h1 : (redisAllow (some (1, 0)) ⟨3, 1, 0, "exports", true, 2, 0⟩ 2
      0).allowed = false := by
    unfold redisAllow luaTokenBucket luaRefill redisStoreAllow fmt4
      roundHalfToEven
    norm_num
  have h2 : (redisAllow (some (1, 0)) ⟨3, 1, 0, "exports", true, 2, 0⟩ 2
      0).remaining = 1 := by
    unfold redisAllow luaTokenBucket luaRefill redisStoreAllow fmt4
      roundHalfToEven
    norm_num
  exact ⟨h1, by rw [h2]; norm_num⟩

/-- C3 (amended): a denied check reports `remaining = 0` in the in-memory
store for every cost; the Redis script instead reports `⌊tokens⌋`, which is
0 whenever `cost = 1` (tokens below cost are then below 1) but can be
positive for larger costs. -/
theorem denied_remaining_amended :
    (∀ (eb : Option Bucket) (p : Policy) (cost : ℤ) (now : ℚ),
      (memoryAllow eb p cost now).2.allowed = false →
      (memoryAllow eb p cost now).2.remaining = 0) ∧
    (∀ (stored : Option (ℚ × ℤ)) (p : Policy) (nowMs : ℤ),
      0 < p.limit → 0 ≤ p.burst → 0 < p.window →
      storedNonneg stored = true →
      (redisAllow stored p 1 nowMs).allowed = false →
      (redisAllow stored p 1 nowMs).remaining = 0) := by
  constructor
  · intro eb p cost now hden
    set b0 := (match eb with | none => NewBucket p now | some b => b) with hb0
    by_cases hallow : (cost : ℚ) ≤ (b0.refill now).tokens
    · exfalso
      have htrue : (memoryAllow eb p cost now).2.allowed = true := by
        rw [memoryAllow_allowed, ← hb0]
        unfold Bucket.allow
        dsimp only
        rw [if_pos hallow]
      rw [htrue] at hden
      exact Bool.noConfusion hden
    · have hstep : b0.allow cost now = (b0.refill now, 0, false) := by
        unfold Bucket.allow
        dsimp only
        rw [if_neg hallow]
      show (memoryAllow eb p cost now).2.remaining = 0
      unfold memoryAllow
      dsimp only
      rw [← hb0, hstep]
      simp
  · intro stored p nowMs hl hb hw hs hden
    set rate := fmt4 ((p.limit : ℚ) / p.window) with hratedef
    set maxT := fmt4 ((p.limit + p.burst : ℤ) : ℚ) with hmaxdef
    have hmax0 : 0 ≤ maxT := by
      rw [hmaxdef]
      apply fmt4_nonneg
      have : (0 : ℤ) ≤ p.limit + p.burst := by omega
      exact_mod_cast this
    have hrate0 : 0 ≤ rate := by
      rw [hratedef]
      apply fmt4_nonneg
      exact le_of_lt (div_pos (by exact_mod_cast hl) hw)
    have ht0 : 0 ≤ (luaRefill stored maxT rate nowMs).1 :=
      luaRefill_nonneg stored maxT rate nowMs hmax0 hrate0 hs
    by_cases hallow : ((1 : ℤ) : ℚ) ≤ (luaRefill stored maxT rate nowMs).1
    · exfalso
      have hflag := luaOut_allowedFlag_of_le stored maxT rate 1 nowMs hallow
      have htrue : (redisAllow stored p 1 nowMs).allowed = true := by
        rw [redisAllow_eq, redisStoreAllow_ok, ← hmaxdef, ← hratedef]
        dsimp only
        rw [hflag]
        rfl
      rw [htrue] at hden
      exact Bool.noConfusion hden
    · have hout := luaOut_denied stored maxT rate 1 nowMs hallow
      have hlt1 : (luaRefill stored maxT rate nowMs).1 < 1 := by
        have := lt_of_not_le hallow
        simpa using this
      have hfloor : ⌊(luaRefill stored maxT rate nowMs).1⌋ = 0 := by
        apply Int.floor_eq_zero_iff.mpr
        constructor
        · simpa using ht0
        · simpa using hlt1
      have : (redisAllow stored p 1 nowMs).remaining =
          ⌊(luaRefill stored maxT rate nowMs).1⌋ := by
        rw [redisAllow_eq, redisStoreAllow_ok, ← hmaxdef, ← hratedef]
        dsimp only
        rw [hout.2.1]
      rw [this, hfloor]

/-- Witness for the amended C3: a denied cost-3 in-memory check reports
remaining 0, and a denied cost-1 Redis check on a 1/2-token record reports
remaining 0. -/
theorem denied_remaining_amended_witness :
    (memoryAllow (some ⟨1, 5, 5, 0⟩) ⟨5, 1, 0, "w", true, 3, 0⟩ 3
        0).2.remaining = 0 ∧
    (redisAllow (some (1/2, 0)) ⟨5, 1, 0, "w", true, 1, 0⟩ 1 0).remaining
        = 0 :=
  ⟨denied_remaining_amended.1 (some ⟨1, 5, 5, 0⟩) ⟨5, 1, 0, "w", true, 3, 0⟩
      3 0
      (by rw [memoryAllow_allowed]
          unfold Bucket.allow Bucket.refill
          norm_num),
   denied_remaining_amended.2 (some (1/2, 0)) ⟨5, 1, 0, "w", true, 1, 0⟩ 0
      (by norm_num) (by norm_num) (by norm_num)
      (by simp [storedNonneg])
      (by unfold redisAllow luaTokenBucket luaRefill redisStoreAllow fmt4
            roundHalfToEven
          norm_num)⟩

/-- C5: when the Redis script invocation errors, `RedisStore.Allow` returns
the fail-open sentinel `{allowed = true, limit = limit + burst,
remaining = limit + burst}`, and the middleware then admits the request. -/
theorem redis_fail_open_admits (p : Policy) (e : String) (hasConc : Bool)
    (hp : p.enabled = true) :
    redisStoreAllow p (.error e) =
      { allowed := true, limit := p.limit + p.burst,
        remaining := p.limit + p.burst, retryAfter := 0, resetAt := 0 } ∧
    limiterDecide true p false hasConc true
      (fun _ _ => redisStoreAllow p (.error e)) = .admitted := by
  refine ⟨rfl, ?_⟩
  unfold limiterDecide redisStoreAllow
  simp [hp]

/-- Witness for C5 at a concrete policy and error. -/
theorem redis_fail_open_admits_witness :
    redisStoreAllow ⟨10, 60, 5, "api", true, 1, 2⟩ (.error "conn refused") =
      { allowed := true, limit := 15, remaining := 15,
        retryAfter := 0, resetAt := 0 } ∧
    limiterDecide true ⟨10, 60, 5, "api", true, 1, 2⟩ false true true
      (fun _ _ => redisStoreAllow ⟨10, 60, 5, "api", true, 1, 2⟩
        (.error "conn refused")) = .admitted :=
  redis_fail_open_admits ⟨10, 60, 5, "api", true, 1, 2⟩ "conn refused"
    true rfl

set_option maxRecDepth 10000 in
/-- C7 counterexample: for a 41-character key the value placed in the log
entry is the first 40 characters FOLLOWED BY an ellipsis marker, not the
bare 40-character prefix the claim describes. -/
theorem truncateKey_appends_ellipsis_cex :
    (mkDenyLogEntry "POST" "/login" "ip"
        "ip:aaaaaaaaaaaaaaaaaaaaaaaaaaaaaaaaaaaaaa" "auth"
        ⟨false, 10, 0, 7, 0⟩ "1.2.3.4").keyHash ≠
      ("ip:aaaaaaaaaaaaaaaaaaaaaaaaaaaaaaaaaaaaaa").take 40 := by
  decide

/-- C7 (amended): the logged key value is the whole key when its length is
at most 40 characters, and otherwise the first 40 characters with `"..."`
appended; the `LogEntry.key_hash` field built by `denyResponse` is exactly
this value. -/
theorem truncateKey_spec_amended (key m pth kt sc cip : String)
    (res : Result) :
    truncateKey key =
      (if key.length ≤ 40 then key else key.take 40 ++ "...") ∧
    (mkDenyLogEntry m pth kt key sc res cip).keyHash = truncateKey key := by
  constructor
  · unfold truncateKey
    rcases Nat.lt_or_ge 40 key.length with h | h
    · rw [if_pos h, if_neg (by omega)]
    · rw [if_neg (by omega), if_pos (by omega)]
  · rfl

/-- C9: when the Redis concurrency store's script errors, `Acquire` returns
true (fail-open), so the middleware never emits the concurrency 429, and if
the subsequent rate check allows, the request is admitted. -/
theorem concurrency_acquire_error_fail_open (p : Policy) (e : String)
    (storeAllow : Policy → ℤ → Result) (hp : p.enabled = true) :
    (redisConcAcquire (.error e)).1 = true ∧
    limiterDecide true p false true (redisConcAcquire (.error e)).1
      storeAllow ≠ .deniedConcurrency ∧
    ((storeAllow p (if p.cost < 1 then 1 else p.cost)).allowed = true →
      limiterDecide true p false true (redisConcAcquire (.error e)).1
        storeAllow = .admitted) := by
  refine ⟨rfl, ?_, ?_⟩
  · unfold limiterDecide redisConcAcquire
    by_cases hA : (storeAllow p (if p.cost < 1 then 1 else p.cost)).allowed <;>
      simp [hp, hA]
  · intro hA
    unfold limiterDecide redisConcAcquire
    simp [hp, hA]

/-- Witness for C9 at a concrete policy with an active concurrency limit. -/
theorem concurrency_acquire_error_fail_open_witness :
    (redisConcAcquire (.error "timeout")).1 = true ∧
    limiterDecide true ⟨10, 60, 0, "exports", true, 1, 1⟩ false true
      (redisConcAcquire (.error "timeout")).1
      (fun _ _ => ⟨true, 10, 9, 0, 0⟩) ≠ .deniedConcurrency ∧
    limiterDecide true ⟨10, 60, 0, "exports", true, 1, 1⟩ false true
      (redisConcAcquire (.error "timeout")).1
      (fun _ _ => ⟨true, 10, 9, 0, 0⟩) = .admitted :=
  ⟨(concurrency_acquire_error_fail_open ⟨10, 60, 0, "exports", true, 1, 1⟩
      "timeout" (fun _ _ => ⟨true, 10, 9, 0, 0⟩) rfl).1,
   (concurrency_acquire_error_fail_open ⟨10, 60, 0, "exports", true, 1, 1⟩
      "timeout" (fun _ _ => ⟨true, 10, 9, 0, 0⟩) rfl).2.1,
   (concurrency_acquire_error_fail_open ⟨10, 60, 0, "exports", true, 1, 1⟩
      "timeout" (fun _ _ => ⟨true, 10, 9, 0, 0⟩) rfl).2.2 rfl⟩

/-- Decimal digit test (ASCII). -/
def isDigitCh (c : Char) : Bool := '0' ≤ c && c ≤ '9'

/-- Hex digit value, as in Go's `xtoi`. -/
def hexVal (c : Char) : Option Nat :=
  if '0' ≤ c ∧ c ≤ '9' then some (c.toNat - 48)
  else if 'a' ≤ c ∧ c ≤ 'f' then some (c.toNat - 97 + 10)
  else if 'A' ≤ c ∧ c ≤ 'F' then some (c.toNat - 65 + 10)
  else none

/-- ASCII whitespace, as `strings.TrimSpace` treats it (the unicode cases
do not occur in the limiter's inputs). -/
def isSpaceCh (c : Char) : Bool :=
  c == ' ' || c == '\t' || c == '\n' || c == '\r' ||
    c == Char.ofNat 11 || c == Char.ofNat 12

/-- `strings.TrimSpace`. -/
def trimSpace (s : String) : String :=
  String.mk (((s.data.dropWhile isSpaceCh).reverse.dropWhile
    isSpaceCh).reverse)

def splitCharAux (sep : Char) : List Char → List Char → List (List Char)
  | [], cur => [cur.reverse]
  | c :: rest, cur =>
      if c == sep then cur.reverse :: splitCharAux sep rest []
      else splitCharAux sep rest (c :: cur)

/-- `strings.Split` on a single-character separator (never empty). -/
def splitChar (sep : Char) (s : String) : List String :=
  (splitCharAux sep s.data []).map String.mk

/-- One dotted-quad field of Go's IPv4 parse: 1-3 decimal digits, no leading
zero (except "0" itself), value at most 255. -/
def parseV4Field (s : List Char) : Option Nat :=
  if s.isEmpty then none
  else if ¬ (s.all isDigitCh) then none
  else if 1 < s.length ∧ s.headD '0' = '0' then none
  else
    let v := s.foldl (fun a c => a * 10 + (c.toNat - 48)) 0
    if 255 < v then none else some v

/-- Go's IPv4 parse (`netip.parseIPv4` semantics): exactly four fields. -/
def parseIPv4Bytes (s : String) : Option (List Nat) :=
  match (splitChar '.' s).mapM (fun f => parseV4Field f.data) with
  | some [a, b, c, d] => some [a, b, c, d]
  | _ => none

/-- Go's `xtoi`: parse a hex-number prefix; returns (value, chars consumed,
ok), failing on overflow past 0xFFFFFF or when no digit is present. -/
def xtoiAux : List Char → Nat → Nat → Nat × Nat × Bool
  | [], n, i => if i = 0 then (0, i, false) else (n, i, true)
  | c :: rest, n, i =>
    match hexVal c with
    | none => if i = 0 then (0, i, false) else (n, i, true)
    | some d =>
        let n2 := n * 16 + d
        if 0xFFFFFF ≤ n2 then (0, i + 1, false)
        else xtoiAux rest n2 (i + 1)

def xtoi (s : List Char) : Nat × Nat × Bool := xtoiAux s 0 0

/-- End of Go's `parseIPv6` loop: expand the ellipsis (or fail when the
address is short without one / full with one). -/
def finishIPv6 (i : Nat) (acc : List Nat) (ell : Option Nat) :
    Option (List Nat) :=
  if i < 16 then
    match ell with
    | none => none
    | some e => some (acc.take e ++ List.replicate (16 - i) 0 ++ acc.drop e)
  else if ell.isSome then none
  else some acc

/-- The main loop of Go's `parseIPv6`: `i` bytes filled so far into `acc`,
`ell` the ellipsis position.  `fuel` only bounds the recursion (each
iteration consumes at least one character, and at most 8 groups exist). -/
def parseIPv6Loop : Nat → List Char → Nat → List Nat → Option Nat →
    Option (List Nat)
  | 0, _, _, _, _ => none
  | fuel + 1, s, i, acc, ell =>
    if 16 ≤ i then (if s.isEmpty then finishIPv6 i acc ell else none)
    else
      let r := xtoi s
      let n := r.1
      let c := r.2.1
      let ok := r.2.2
      if ¬ ok ∨ 0xFFFF < n then none
      else if c < s.length ∧ s.getD c ' ' = '.' then
        if ell.isNone ∧ i ≠ 12 then none
        else if 16 < i + 4 then none
        else
          match parseIPv4Bytes (String.mk s) with
          | none => none
          | some ds => finishIPv6 (i + 4) (acc ++ ds) ell
      else
        let acc2 := acc ++ [n / 256, n % 256]
        let s2 := s.drop c
        if s2.isEmpty then finishIPv6 (i + 2) acc2 ell
        else if s2.headD ' ' ≠ ':' ∨ s2.length = 1 then none
        else
          let s3 := s2.drop 1
          if s3.headD ' ' = ':' then
            if ell.isSome then none
            else
              let s4 := s3.drop 1
              if s4.isEmpty then finishIPv6 (i + 2) acc2 (some (i + 2))
              else parseIPv6Loop fuel s4 (i + 2) acc2 (some (i + 2))
          else parseIPv6Loop fuel s3 (i + 2) acc2 ell

/-- Go's `parseIPv6` (zoneless; modern `net.ParseIP` rejects zones). -/
def parseIPv6 (str : String) : Option (List Nat) :=
  let s := str.data
  if 2 ≤ s.length ∧ s.headD ' ' = ':' ∧ (s.drop 1).headD ' ' = ':' then
    let s2 := s.drop 2
    if s2.isEmpty then some (List.replicate 16 0)
    else parseIPv6Loop 20 s2 0 [] (some 0)
  else parseIPv6Loop 20 s 0 [] none

/-- IPv4 bytes embedded as an IPv4-mapped IPv6 address (Go stores `ParseIP`
results as 16 bytes). -/
def v4InV6 (ds : List Nat) : List Nat :=
  [0, 0, 0, 0, 0, 0, 0, 0, 0, 0, 255, 255] ++ ds

/-- `net.ParseIP`: dispatch on the first `'.'` / `':'` / `'%'` (a zone is
rejected); no special character parses as nothing. -/
def parseIP (s : String) : Option (List Nat) :=
  match s.data.find? (fun c => c == '.' || c == ':' || c == '%') with
  | some '.' => (parseIPv4Bytes s).map v4InV6
  | some ':' => parseIPv6 s
  | _ => none

/-- `IP.To4`: a 4-byte address, or the tail of an IPv4-mapped 16-byte one. -/
def to4 (ip : List Nat) : Option (List Nat) :=
  if ip.length = 4 then some ip
  else if ip.length = 16 ∧
      ip.take 12 = [0, 0, 0, 0, 0, 0, 0, 0, 0, 0, 255, 255] then
    some (ip.drop 12)
  else none

def natDecAux : Nat → Nat → List Char
  | 0, _ => []
  | _, 0 => []
  | fuel + 1, n => natDecAux fuel (n / 10) ++ [Char.ofNat (48 + n % 10)]

/-- Decimal rendering of a byte value. -/
def natDec (n : Nat) : String :=
  if n = 0 then "0" else String.mk (natDecAux 20 n)

def hexChar (n : Nat) : Char := ("0123456789abcdef".data).getD n '0'

def natHexAux : Nat → Nat → List Char
  | 0, _ => []
  | _, 0 => []
  | fuel + 1, n => natHexAux fuel (n / 16) ++ [hexChar (n % 16)]

/-- Lowercase hex rendering without leading zeros (Go's `appendHex`). -/
def natHex (n : Nat) : String :=
  if n = 0 then "0" else String.mk (natHexAux 8 n)

/-- Bytes to big-endian 16-bit groups. -/
def pairBytes : List Nat → List Nat
  | a :: b :: rest => (a * 256 + b) :: pairBytes rest
  | _ => []

def zeroRunAt (gs : List Nat) (i : Nat) : Nat :=
  ((gs.drop i).takeWhile (fun g => g == 0)).length

/-- Earliest longest run of at least two zero groups (RFC 5952 / Go's
`IP.String` zero-compression scan). -/
def bestZeroRun (gs : List Nat) : Option (Nat × Nat) :=
  let best := (List.range gs.length).foldl
    (fun acc i =>
      let len := zeroRunAt gs i
      if acc.2 < len then (i, len) else acc) (0, 0)
  if 1 < best.2 then some best else none

def joinColon (parts : List String) : String :=
  match parts with
  | [] => ""
  | p :: rest => rest.foldl (fun a q => a ++ ":" ++ q) p

/-- RFC 5952 text of an IPv6 address given as 8 groups. -/
def ipv6String (gs : List Nat) : String :=
  match bestZeroRun gs with
  | none => joinColon (gs.map natHex)
  | some run =>
      joinColon ((gs.take run.1).map natHex) ++ "::" ++
        joinColon ((gs.drop (run.1 + run.2)).map natHex)

/-- `IP.String`: dotted quad for (possibly v4-mapped) IPv4, compressed hex
for IPv6, `"?"` plus hex for other lengths. -/
def ipString (ip : List Nat) : String :=
  match to4 ip with
  | some ds =>
      match ds with
      | [a, b, c, d] =>
          natDec a ++ "." ++ natDec b ++ "." ++ natDec c ++ "." ++ natDec d
      | _ => ""
  | none =>
      if ip.length = 16 then ipv6String (pairBytes ip)
      else "?" ++ String.mk (ip.flatMap
        (fun b => [hexChar (b / 16), hexChar (b % 16)]))

/-- `normalizeIP` (clientip.go:74-81): trim, parse, re-serialize; a string
that does not parse is returned (trimmed) unchanged. -/
def normalizeIP (raw : String) : String :=
  let t := trimSpace raw
  match parseIP t with
  | none => t
  | some ip => ipString ip

def lastIndexOf (c : Char) (cs : List Char) : Option Nat :=
  match cs.reverse.findIdx? (fun x => x == c) with
  | none => none
  | some j => some (cs.length - 1 - j)

/-- `net.SplitHostPort`, returning only the host (`none` on any error). -/
def splitHostPort (addr : String) : Option String :=
  let cs := addr.data
  match lastIndexOf ':' cs with
  | none => none
  | some i =>
    if cs.headD ' ' = '[' then
      match cs.findIdx? (fun x => x == ']') with
      | none => none
      | some e =>
          if e + 1 = cs.length then none
          else if e + 1 = i then
            let host := (cs.take e).drop 1
            if (cs.drop 1).contains '[' ∨ (cs.drop (e + 1)).contains ']'
            then none
            else some (String.mk host)
          else none
    else
      let host := cs.take i
      if host.contains ':' then none
      else if cs.contains '[' ∨ cs.contains ']' then none
      else some (String.mk host)

/-- `extractIP` (clientip.go:64-70): strip the port, or return the address
unchanged when `SplitHostPort` errors. -/
def extractIP (addr : String) : String :=
  match splitHostPort addr with
  | none => addr
  | some host => host

/-- Byte of a CIDR mask with `k` leading one bits (k between 0 and 8). -/
def maskByte (k : Nat) : Nat := 256 - 2 ^ (8 - k)

/-- `net.CIDRMask ones bits`. -/
def cidrMask (ones bits : Nat) : List Nat :=
  (List.range (bits / 8)).map
    (fun i => maskByte (min 8 (ones - min ones (i * 8))))

/-- Go's `dtoi` applied to the whole string (as `ParseCIDR` requires). -/
def parseDecAll (s : List Char) : Option Nat :=
  if s.isEmpty ∨ ¬ (s.all isDigitCh) then none
  else
    let v := s.foldl (fun a c => a * 10 + (c.toNat - 48)) 0
    if 0xFFFFFF ≤ v then none else some v

def maskIP (ip m : List Nat) : List Nat :=
  List.zipWith (fun a b => a &&& b) ip m

/-- `net.ParseCIDR`, returning the masked network address and the mask. -/
def parseCIDR (s : String) : Option (List Nat × List Nat) :=
  match s.data.findIdx? (fun c => c == '/') with
  | none => none
  | some i =>
      let addr := String.mk (s.data.take i)
      let maskStr := s.data.drop (i + 1)
      let parsed : Option (List Nat) × Nat :=
        match parseIPv4Bytes addr with
        | some ip4 => (some ip4, 4)
        | none => (parseIPv6 addr, 16)
      match parsed.1 with
      | none => none
      | some ip =>
          match parseDecAll maskStr with
          | none => none
          | some n =>
              if 8 * parsed.2 < n then none
              else some (maskIP ip (cidrMask n (8 * parsed.2)),
                         cidrMask n (8 * parsed.2))

/-- `IPNet.Contains`: convert the query to 4 bytes when possible, compare
masked bytes (false when the lengths disagree). -/
def cidrContains (netIP m ip0 : List Nat) : Bool :=
  let ip := match to4 ip0 with
    | some x => x
    | none => ip0
  if netIP.length ≠ ip.length then false
  else (List.zip (List.zip netIP m) ip).all
    (fun t => (t.1.1 &&& t.1.2) == (t.2 &&& t.1.2))

/-- `IP.Equal`: equal bytes, or a v4 address equal to its v4-mapped form. -/
def ipEqual (a b : List Nat) : Bool :=
  if a.length = b.length then a == b
  else
    match to4 a, to4 b with
    | some a4, some b4 => a4 == b4
    | _, _ => false

/-- `isTrusted` (clientip.go:85-108): any entry matches, CIDR entries via
`Contains`, plain entries via `IP.Equal`; unparsable inputs never match. -/
def isTrusted (ip : String) (trusted : List String) : Bool :=
  match parseIP ip with
  | none => false
  | some pip =>
      trusted.any (fun entry =>
        if entry.contains '/' then
          match parseCIDR entry with
          | none => false
          | some nm => cidrContains nm.1 nm.2 pip
        else
          match parseIP entry with
          | none => false
          | some eip => ipEqual eip pip)

/-- The parts of an `http.Request` the rate limiter reads.  Headers the code
fetches with `Header.Get` are modelled as strings (empty = absent). -/
structure Request where
  remoteAddr : String
  xRealIP : String
  xForwardedFor : String
  method : String
  postForm : List (String × String)
  query : List (String × String)
  path : String
deriving DecidableEq, Repr

/-- `ClientIP` (clientip.go:22-61), with the configured trusted-proxy list
passed explicitly (the Go code reads it from package config). -/
def ClientIP (trusted : List String) (r : Request) : String :=
  let peerIP := extractIP r.remoteAddr
  if trusted.isEmpty || ! isTrusted peerIP trusted then normalizeIP peerIP
  else if r.xRealIP ≠ "" then normalizeIP (trimSpace r.xRealIP)
  else if r.xForwardedFor ≠ "" then
    let parts := splitChar ',' r.xForwardedFor
    match parts.reverse.findSome? (fun part =>
        let ip := trimSpace part
        if ip = "" then none
        else if ! isTrusted ip trusted then some ip
        else none) with
    | some ip => normalizeIP ip
    | none =>
        let first := trimSpace (parts.headD "")
        if first ≠ "" then normalizeIP first else normalizeIP peerIP
  else normalizeIP peerIP

/-- C6: with an empty trusted-proxy list `ClientIP` returns the normalized
peer IP (RemoteAddr with the port stripped) regardless of the forwarding
headers, so two requests with the same RemoteAddr but different
X-Forwarded-For / X-Real-IP headers resolve to the same client IP. -/
theorem clientIP_ignores_headers_when_no_trusted_proxies
    (trusted : List String) (r1 r2 : Request)
    (hT : trusted = []) (hpeer : r1.remoteAddr = r2.remoteAddr) :
    ClientIP trusted r1 = normalizeIP (extractIP r1.remoteAddr) ∧
    ClientIP trusted r1 = ClientIP trusted r2 := by
  subst hT
  have h1 : ∀ r : Request,
      ClientIP [] r = normalizeIP (extractIP r.remoteAddr) := by
    intro r
    unfold ClientIP
    simp
  exact ⟨h1 r1, by rw [h1 r1, h1 r2, hpeer]⟩

set_option maxRecDepth 40000 in
/-- Witness for C6: same peer `10.0.0.5:1234`, conflicting spoofed headers,
same resolved client IP. -/
theorem clientIP_ignores_headers_when_no_trusted_proxies_witness :
    ClientIP [] ⟨"10.0.0.5:1234", "9.9.9.9", "1.2.3.4", "GET", [], [], "/"⟩ =
      normalizeIP (extractIP "10.0.0.5:1234") ∧
    ClientIP [] ⟨"10.0.0.5:1234", "9.9.9.9", "1.2.3.4", "GET", [], [], "/"⟩ =
      ClientIP [] ⟨"10.0.0.5:1234", "", "203.0.113.9, 10.0.0.2", "GET", [],
        [], "/"⟩ :=
  clientIP_ignores_headers_when_no_trusted_proxies []
    ⟨"10.0.0.5:1234", "9.9.9.9", "1.2.3.4", "GET", [], [], "/"⟩
    ⟨"10.0.0.5:1234", "", "203.0.113.9, 10.0.0.2", "GET", [], [], "/"⟩
    rfl rfl

set_option maxRecDepth 40000 in
/-- C10: `normalizeIP` returns the whitespace-trimmed input unchanged for
every string that does not parse as an IP address; consequently `ClientIP`
can return a non-IP string verbatim, e.g. for the malformed RemoteAddr
`"banana"`. -/
theorem normalizeIP_nonParsable_verbatim :
    (∀ s : String, parseIP (trimSpace s) = none →
      normalizeIP s = trimSpace s) ∧
    ClientIP [] ⟨"banana", "", "", "GET", [], [], "/"⟩ = "banana" ∧
    parseIP "banana" = none := by
  refine ⟨?_, ?_, ?_⟩
  · intro s h
    unfold normalizeIP
    dsimp only
    rw [h]
  · decide
  · decide

set_option maxRecDepth 40000 in
/-- Witness for C10 at the concrete non-IP string `" banana "`. -/
theorem normalizeIP_nonParsable_verbatim_witness :
    normalizeIP " banana " = trimSpace " banana " :=
  normalizeIP_nonParsable_verbatim.1 " banana " (by decide)

/-- UTF-8 encoding of one character (Go's `[]byte(string)`). -/
def utf8Bytes (c : Char) : List Nat :=
  let n := c.toNat
  if n < 0x80 then [n]
  else if n < 0x800 then
    [0xC0 ||| (n >>> 6), 0x80 ||| (n &&& 0x3F)]
  else if n < 0x10000 then
    [0xE0 ||| (n >>> 12), 0x80 ||| ((n >>> 6) &&& 0x3F),
     0x80 ||| (n &&& 0x3F)]
  else
    [0xF0 ||| (n >>> 18), 0x80 ||| ((n >>> 12) &&& 0x3F),
     0x80 ||| ((n >>> 6) &&& 0x3F), 0x80 ||| (n &&& 0x3F)]

def strBytes (s : String) : List Nat := s.data.flatMap utf8Bytes

def w32 (n : Nat) : Nat := n % 4294967296

def rotr32 (n k : Nat) : Nat := w32 ((n >>> k) ||| (n <<< (32 - k)))

def shaS0 (x : Nat) : Nat := (rotr32 x 7) ^^^ (rotr32 x 18) ^^^ (x >>> 3)

def shaS1 (x : Nat) : Nat := (rotr32 x 17) ^^^ (rotr32 x 19) ^^^ (x >>> 10)

/-- SHA-256 round constants (FIPS 180-4, written in decimal). -/
def K256 : List Nat :=
  [1116352408, 1899447441, 3049323471,
   3921009573, 961987163, 1508970993,
   2453635748, 2870763221, 3624381080,
   310598401, 607225278, 1426881987,
   1925078388, 2162078206, 2614888103,
   3248222580, 3835390401, 4022224774,
   264347078, 604807628, 770255983,
   1249150122, 1555081692, 1996064986,
   2554220882, 2821834349, 2952996808,
   3210313671, 3336571891, 3584528711,
   113926993, 338241895, 666307205,
   773529912, 1294757372, 1396182291,
   1695183700, 1986661051, 2177026350,
   2456956037, 2730485921, 2820302411,
   3259730800, 3345764771, 3516065817,
   3600352804, 4094571909, 275423344,
   430227734, 506948616, 659060556,
   883997877, 958139571, 1322822218,
   1537002063, 1747873779, 1955562222,
   2024104815, 2227730452, 2361852424,
   2428436474, 2756734187, 3204031479,
   3329325298]

/-- SHA-256 initial hash state (FIPS 180-4, written in decimal). -/
def H256init : List Nat :=
  [1779033703, 3144134277, 1013904242,
   2773480762, 1359893119, 2600822924,
   528734635, 1541459225]

def bytesToWords : List Nat → List Nat
  | b0 :: b1 :: b2 :: b3 :: rest =>
      (((b0 <<< 8 ||| b1) <<< 8 ||| b2) <<< 8 ||| b3) :: bytesToWords rest
  | _ => []

def msgSchedule (w16 : List Nat) : List Nat :=
  (List.range 48).foldl
    (fun w _ =>
      w ++ [w32 (shaS1 (w.getD (w.length - 2) 0) + w.getD (w.length - 7) 0 +
        shaS0 (w.getD (w.length - 15) 0) + w.getD (w.length - 16) 0)])
    w16

def sha256Round (st : List Nat) (k w : Nat) : List Nat :=
  match st with
  | [a, b, c, d, e, f, g, h] =>
      let s1 := (rotr32 e 6) ^^^ (rotr32 e 11) ^^^ (rotr32 e 25)
      let ch := (e &&& f) ^^^ ((e ^^^ 0xFFFFFFFF) &&& g)
      let temp1 := w32 (h + s1 + ch + k + w)
      let s0 := (rotr32 a 2) ^^^ (rotr32 a 13) ^^^ (rotr32 a 22)
      let maj := (a &&& b) ^^^ (a &&& c) ^^^ (b &&& c)
      let temp2 := w32 (s0 + maj)
      [w32 (temp1 + temp2), a, b, c, w32 (d + temp1), e, f, g]
  | other => other

def processBlock (hs : List Nat) (block : List Nat) : List Nat :=
  let w := msgSchedule (bytesToWords block)
  let st := (List.range 64).foldl
    (fun st i => sha256Round st (K256.getD i 0) (w.getD i 0)) hs
  (List.zip hs st).map (fun pq => w32 (pq.1 + pq.2))

def chunks64 : Nat → List Nat → List (List Nat)
  | 0, _ => []
  | _, [] => []
  | fuel + 1, bs => bs.take 64 :: chunks64 fuel (bs.drop 64)

def beBytes8 (n : Nat) : List Nat :=
  [n >>> 56 &&& 255, n >>> 48 &&& 255, n >>> 40 &&& 255, n >>> 32 &&& 255,
   n >>> 24 &&& 255, n >>> 16 &&& 255, n >>> 8 &&& 255, n &&& 255]

/-- SHA-256 of a byte string (FIPS 180-4), as `crypto/sha256.Sum256`. -/
def sha256 (msg : List Nat) : List Nat :=
  let len := msg.length
  let padded := msg ++ [0x80] ++
    List.replicate ((56 + 64 - ((len + 1) % 64)) % 64) 0 ++
    beBytes8 (8 * len)
  let hs := (chunks64 padded.length padded).foldl processBlock H256init
  hs.flatMap (fun h =>
    [h >>> 24 &&& 255, h >>> 16 &&& 255, h >>> 8 &&& 255, h &&& 255])

/-- `hex.EncodeToString`. -/
def hexEncode (bs : List Nat) : String :=
  String.mk (bs.flatMap (fun b => [hexChar (b / 16), hexChar (b % 16)]))

set_option maxRecDepth 100000 in
/-- Sanity check of the SHA-256 embedding against the FIPS 180-4 test
vector for "abc". -/
theorem sha256_abc_vector :
    hexEncode (sha256 (strBytes "abc")) =
      "ba7816bf8f01cfea414140de5dae2223b00361a396177a9cb410ff61f20015ad" := by
  decide

/-- `hashValue` (keys.go:146-149): first 16 hex characters of SHA-256. -/
def hashValue (v : String) : String :=
  (hexEncode (sha256 (strBytes v))).take 16

/-- ASCII model of `strings.ToLower` (identifier fields are ASCII). -/
def strToLower (s : String) : String := String.mk (s.data.map Char.toLower)

/-- `r.FormValue` after `ParseForm`: POST body values take precedence over
the URL query (Go merges them with the body first). -/
def formValue (r : Request) (field : String) : String :=
  match (r.postForm ++ r.query).lookup field with
  | some v => v
  | none => ""

/-- `r.URL.Query().Get(field)`. -/
def queryValue (r : Request) (field : String) : String :=
  match r.query.lookup field with
  | some v => v
  | none => ""

/-- `extractIdentifier` (keys.go:129-142): form value for POST/PUT, query
fallback, normalized by trim + lowercase. -/
def extractIdentifier (r : Request) (field : String) : String :=
  if r.method = "POST" ∨ r.method = "PUT" then
    let v := formValue r field
    if v ≠ "" then strToLower (trimSpace v)
    else
      let q := queryValue r field
      if q ≠ "" then strToLower (trimSpace q) else ""
  else
    let q := queryValue r field
    if q ≠ "" then strToLower (trimSpace q) else ""

/-- `KeyByIPAndIdentifier` (keys.go:83-89), with the trusted-proxy list of
`ClientIP` passed explicitly. -/
def KeyByIPAndIdentifier (trusted : List String) (field : String)
    (r : Request) : String × String :=
  ("ipident:" ++ ClientIP trusted r ++ ":" ++
    hashValue (extractIdentifier r field), "ipident")

/-- Login POST with form field `email=Alice@example.com` from 10.0.0.5. -/
def reqAlice1 : Request :=
  ⟨"10.0.0.5:1234", "", "", "POST", [("email", "Alice@example.com")], [],
   "/login"⟩

/-- Same peer, `email=alice@example.com ` (case/whitespace variant). -/
def reqAlice2 : Request :=
  ⟨"10.0.0.5:1234", "", "", "POST", [("email", "alice@example.com ")], [],
   "/login"⟩

/-- Same peer, `email=bob@example.com`. -/
def reqBob : Request :=
  ⟨"10.0.0.5:1234", "", "", "POST", [("email", "bob@example.com")], [],
   "/login"⟩

set_option maxRecDepth 100000 in
/-- C8: two POSTs from the same peer (no trusted proxies) whose form values
for the configured field agree after trimming and lowercasing produce the
same (key, key_type) pair; concretely "Alice@example.com" and
"alice@example.com " collide while "bob@example.com" produces a different
key. -/
theorem keyByIPAndIdentifier_normalizes_and_separates :
    (∀ (field : String) (r1 r2 : Request),
      r1.remoteAddr = r2.remoteAddr →
      r1.method = "POST" → r2.method = "POST" →
      formValue r1 field ≠ "" → formValue r2 field ≠ "" →
      strToLower (trimSpace (formValue r1 field)) =
        strToLower (trimSpace (formValue r2 field)) →
      KeyByIPAndIdentifier [] field r1 = KeyByIPAndIdentifier [] field r2) ∧
    KeyByIPAndIdentifier [] "email" reqAlice1 =
      KeyByIPAndIdentifier [] "email" reqAlice2 ∧
    (KeyByIPAndIdentifier [] "email" reqAlice1).1 ≠
      (KeyByIPAndIdentifier [] "email" reqBob).1 := by
  have hip : ∀ r : Request,
      ClientIP [] r = normalizeIP (extractIP r.remoteAddr) := by
    intro r
    unfold ClientIP
    simp
  have hpart1 : ∀ (field : String) (r1 r2 : Request),
      r1.remoteAddr = r2.remoteAddr →
      r1.method = "POST" → r2.method = "POST" →
      formValue r1 field ≠ "" → formValue r2 field ≠ "" →
      strToLower (trimSpace (formValue r1 field)) =
        strToLower (trimSpace (formValue r2 field)) →
      KeyByIPAndIdentifier [] field r1 = KeyByIPAndIdentifier [] field r2 := by
    intro field r1 r2 hpeer hm1 hm2 hv1 hv2 hnorm
    have hid : ∀ (r : Request), r.method = "POST" →
        formValue r field ≠ "" →
        extractIdentifier r field = strToLower (trimSpace (formValue r field)) := by
      intro r hm hv
      unfold extractIdentifier
      rw [if_pos (Or.inl hm)]
      dsimp only
      rw [if_pos hv]
    unfold KeyByIPAndIdentifier
    rw [hip r1, hip r2, hpeer, hid r1 hm1 hv1, hid r2 hm2 hv2, hnorm]
  refine ⟨hpart1, ?_, ?_⟩
  · exact hpart1 "email" reqAlice1 reqAlice2 rfl rfl rfl
      (by decide) (by decide) (by decide)
  · decide

set_option maxRecDepth 100000 in
/-- Witness for C8: the universal part applied at the two concrete Alice
requests. -/
theorem keyByIPAndIdentifier_normalizes_and_separates_witness :
    KeyByIPAndIdentifier [] "email" reqAlice1 =
      KeyByIPAndIdentifier [] "email" reqAlice2 :=
  keyByIPAndIdentifier_normalizes_and_separates.1 "email" reqAlice1 reqAlice2
    rfl rfl rfl (by decide) (by decide) (by decide)

end Gohst
